import Mathlib

/-!
Verification development for the prospect-bot job-aggregation pipeline
(`bot.py`). The Python source is shallowly embedded: strings are `String`
(lists of characters), Python `set` objects are `List String` with
membership, network calls are modelled by explicit outcome values
(`FetchOutcome`, `GroqResult`, and a delivery oracle `Env`), and every
function is a total Lean function mirroring the control flow of the
corresponding Python function.
-/

set_option maxRecDepth 4000

namespace ProspectBot

/-! ## Python string primitives used by `clean_html` and the keyword filter -/

/-- Whitespace characters, modelling the character class matched by the
Python regex `\s` on `str` (and `str.strip`): ASCII whitespace plus the
Unicode space characters. -/
def pySpaceChars : List Char :=
  [' ', '\t', '\n', '\r', '\x0b', '\x0c', '\u0085', '\u00A0', '\u1680',
   '\u2000', '\u2001', '\u2002', '\u2003', '\u2004', '\u2005', '\u2006',
   '\u2007', '\u2008', '\u2009', '\u200A', '\u2028', '\u2029', '\u202F',
   '\u205F', '\u3000']

def isPySpace (c : Char) : Bool := pySpaceChars.contains c

/-- Uppercase-to-lowercase pairs, modelling Python `str.lower` restricted to
ASCII and the Latin-1 letters (enough for every string this program
manipulates; the keyword list only uses ASCII plus `é`). -/
def lowerPairs : List (Char × Char) :=
  [('A','a'), ('B','b'), ('C','c'), ('D','d'), ('E','e'), ('F','f'),
   ('G','g'), ('H','h'), ('I','i'), ('J','j'), ('K','k'), ('L','l'),
   ('M','m'), ('N','n'), ('O','o'), ('P','p'), ('Q','q'), ('R','r'),
   ('S','s'), ('T','t'), ('U','u'), ('V','v'), ('W','w'), ('X','x'),
   ('Y','y'), ('Z','z'),
   ('À','à'), ('Á','á'), ('Â','â'), ('Ã','ã'), ('Ä','ä'), ('Å','å'),
   ('Æ','æ'), ('Ç','ç'), ('È','è'), ('É','é'), ('Ê','ê'), ('Ë','ë'),
   ('Ì','ì'), ('Í','í'), ('Î','î'), ('Ï','ï'), ('Ð','ð'), ('Ñ','ñ'),
   ('Ò','ò'), ('Ó','ó'), ('Ô','ô'), ('Õ','õ'), ('Ö','ö'), ('Ø','ø'),
   ('Ù','ù'), ('Ú','ú'), ('Û','û'), ('Ü','ü'), ('Ý','ý'), ('Þ','þ')]

def pyLowerChar (c : Char) : Char :=
  match lowerPairs.find? (fun p => p.1 == c) with
  | some p => p.2
  | none => c

/-- Python `str.lower`. -/
def pyLower (s : String) : String := ⟨s.data.map pyLowerChar⟩

/-- Python `" ".join(xs)`. -/
def joinSpace : List String → String
  | [] => ""
  | [s] => s
  | s :: rest => s ++ " " ++ joinSpace rest

def isPrefixB : List Char → List Char → Bool
  | [], _ => true
  | _ :: _, [] => false
  | a :: as, b :: bs => a == b && isPrefixB as bs

/-- Python `needle in hay` on strings: contiguous-substring test. -/
def isSubstrB (needle : List Char) : List Char → Bool
  | [] => needle.isEmpty
  | h :: rest => isPrefixB needle (h :: rest) || isSubstrB needle rest

/-! ## `clean_html` (bot.py lines 86-91)

`clean_html` performs, in order: `re.sub(r"<[^>]+>", " ", text)`,
`html.unescape(text)`, `re.sub(r"\s+", " ", text)`, `text.strip()`.
Each pass is embedded below on `List Char`. -/

/-- Scan for the next `>`; on success return the characters after it.
Models the end of a `<[^>]+>` regex match: the greedy `[^>]+` stops right
before the first `>`. -/
def afterGt : List Char → Option (List Char)
  | [] => none
  | c :: rest => if c = '>' then some rest else afterGt rest

/-- Given the characters following a `<`, return the suffix after the
closing `>` when the regex `<[^>]+>` matches here: the first character
must not be `>` (the `+` needs at least one character) and a `>` must
occur later. -/
def tagEnd : List Char → Option (List Char)
  | [] => none
  | c :: rest => if c = '>' then none else afterGt rest

/-- Fuelled worker for the tag-stripping pass `re.sub(r"<[^>]+>", " ", s)`:
each regex match is replaced by one space, scanning left to right; a `<`
that starts no match is kept. Fuel `s.length` always suffices because each
step consumes at least one character. -/
def stripTagsF : Nat → List Char → List Char
  | _, [] => []
  | 0, _ :: _ => []
  | fuel + 1, c :: rest =>
    if c = '<' then
      match tagEnd rest with
      | some rest' => ' ' :: stripTagsF fuel rest'
      | none => c :: stripTagsF fuel rest
    else c :: stripTagsF fuel rest

def stripTags (l : List Char) : List Char := stripTagsF l.length l

/-- Entity decoding, modelling `html.unescape` restricted to the named and
numeric entities relevant here (the full Python table is much larger, but
every entry behaves the same way: one entity becomes one character, in a
single left-to-right pass). -/
def unescape : List Char → List Char
  | [] => []
  | '&' :: 'a' :: 'm' :: 'p' :: ';' :: rest => '&' :: unescape rest
  | '&' :: 'l' :: 't' :: ';' :: rest => '<' :: unescape rest
  | '&' :: 'g' :: 't' :: ';' :: rest => '>' :: unescape rest
  | '&' :: 'q' :: 'u' :: 'o' :: 't' :: ';' :: rest => '"' :: unescape rest
  | '&' :: 'a' :: 'p' :: 'o' :: 's' :: ';' :: rest => '\u0027' :: unescape rest
  | '&' :: '#' :: '3' :: '9' :: ';' :: rest => '\u0027' :: unescape rest
  | '&' :: 'n' :: 'b' :: 's' :: 'p' :: ';' :: rest => '\u00A0' :: unescape rest
  | c :: rest => c :: unescape rest

/-- Worker for `re.sub(r"\s+", " ", s)`: every maximal run of whitespace
characters becomes a single space. The flag records whether the previous
character belonged to a whitespace run already replaced. -/
def collapseAux : Bool → List Char → List Char
  | _, [] => []
  | prevWs, c :: rest =>
    if isPySpace c then
      if prevWs then collapseAux true rest
      else ' ' :: collapseAux true rest
    else c :: collapseAux false rest

def collapseWs (l : List Char) : List Char := collapseAux false l

/-- Remove trailing whitespace (the right half of `str.strip`). -/
def dropTrailing (l : List Char) : List Char :=
  (l.reverse.dropWhile isPySpace).reverse

/-- Python `str.strip()`. -/
def pyStrip (l : List Char) : List Char :=
  dropTrailing (l.dropWhile isPySpace)

/-- bot.py `clean_html`: strip HTML tags, decode entities, collapse
whitespace, strip. -/
def clean_html (s : String) : String :=
  ⟨pyStrip (collapseWs (unescape (stripTags s.data)))⟩

/-- The adapters store `clean_html(raw)[:500]` as the description. -/
def descOf (raw : String) : String := ⟨(clean_html raw).data.take 500⟩

/-- A character list contains no occurrence of the tag pattern
`<[^>]+>`: there is no decomposition around a `<`, a nonempty run of
characters other than `>`, and a closing `>`. -/
def TagFree (l : List Char) : Prop :=
  ∀ pre mid post : List Char, mid ≠ [] → (∀ c ∈ mid, c ≠ '>') →
    l ≠ pre ++ '<' :: (mid ++ '>' :: post)

/-! ## Keyword filter (bot.py lines 33-41) -/

/-- The fixed keyword list `KEYWORDS`, copied from bot.py. -/
def KEYWORDS : List String :=
  ["frontend", "backend", "fullstack", "full-stack", "full stack",
   "react", "next.js", "nextjs", "vue", "angular", "svelte",
   "node", "django", "flask", "fastapi", "laravel", "php",
   "typescript", "javascript", "python",
   "mobile", "react native", "flutter", "ios", "android",
   "web developer", "web dev", "software engineer", "developer",
   "développeur", "developpeur"]

/-- The relevance test `any(kw in search_text for kw in KEYWORDS)` applied
by both adapters to their (already lowercased) search text. -/
def containsKw (search_text : String) : Bool :=
  KEYWORDS.any (fun kw => isSubstrB kw.data search_text.data)

/-! ## Data model -/

/-- One normalized job listing, the dict built by the source adapters. -/
structure Posting where
  id : String
  title : String
  company : String
  url : String
  description : String
  source : String
  date : String
deriving DecidableEq

/-- The requester profile (bot.py `PROFIL_DEFAUT` shape). -/
structure Profil where
  nom : String
  competences : String
  experience : String
  portfolio : String
deriving DecidableEq

def PROFIL_DEFAUT : Profil :=
  { nom := "Camel"
  , competences := "React, Next.js, React Native, Node.js, TypeScript, Python, Flutter"
  , experience := "Développeur web & mobile freelance avec expérience en création d\x27applications complètes (frontend + backend + mobile). Spécialisé en React/Next.js et React Native."
  , portfolio := "https://github.com/Camel" }

/-! ## Source adapters (bot.py lines 97-165)

Each adapter wraps its whole HTTP interaction in `try/except` and returns
`[]` on any failure (network error, non-2xx status via `raise_for_status`,
malformed JSON). `FetchOutcome` is the outcome of that interaction: `ok`
carries the successfully parsed JSON payload, `failure` is any raised
exception. Raw JSON objects are embedded as structures of optional fields
(`none` models an absent or null field). -/

inductive FetchOutcome (α : Type) where
  | ok (data : α)
  | failure
deriving DecidableEq

/-- One raw RemoteOK JSON item (fields the code reads). -/
structure RokItem where
  id : Option String := none
  position : Option String := none
  tags : Option (List String) := none
  company : Option String := none
  url : Option String := none
  description : Option String := none
  date : Option String := none
deriving DecidableEq

/-- The lowercased search text `f"{title} {tags} {company}".lower()` built
by `fetch_remoteok` (title and tags are already lowercased before the
final `.lower()`, exactly as in the code). -/
def rokSearchText (it : RokItem) : String :=
  pyLower (pyLower (it.position.getD "") ++ " "
    ++ pyLower (joinSpace (it.tags.getD [])) ++ " "
    ++ it.company.getD "")

/-- The posting dict `fetch_remoteok` appends for a relevant item. -/
def rokPosting (it : RokItem) : Posting :=
  { id := "rok-" ++ it.id.getD ""
  , title := it.position.getD "N/A"
  , company := it.company.getD "N/A"
  , url := it.url.getD ("https://remoteok.com/remote-jobs/" ++ it.id.getD "")
  , description := descOf (it.description.getD "")
  , source := "RemoteOK"
  , date := it.date.getD "" }

/-- bot.py `fetch_remoteok`: on success, skip the leading metadata element
(`data[1:]`), keep keyword-relevant items, normalize them; on any failure
return `[]`. -/
def fetch_remoteok : FetchOutcome (List RokItem) → List Posting
  | .failure => []
  | .ok data =>
    ((data.drop 1).filter (fun it => containsKw (rokSearchText it))).map rokPosting

/-- One raw Arbeitnow JSON item (fields the code reads); the embedded
payload is the list under the response object key "data". -/
structure AbnItem where
  slug : Option String := none
  title : Option String := none
  description : Option String := none
  tags : Option (List String) := none
  company_name : Option String := none
  url : Option String := none
  created_at : Option String := none
deriving DecidableEq

/-- The search text `f"{title} {desc} {tags}"` built by `fetch_arbeitnow`
(each part lowercased individually; no final `.lower()` in the code). -/
def abnSearchText (it : AbnItem) : String :=
  pyLower (it.title.getD "") ++ " "
    ++ pyLower (it.description.getD "") ++ " "
    ++ pyLower (joinSpace (it.tags.getD []))

/-- The posting dict `fetch_arbeitnow` appends for a relevant item. -/
def abnPosting (it : AbnItem) : Posting :=
  { id := "abn-" ++ it.slug.getD ""
  , title := it.title.getD "N/A"
  , company := it.company_name.getD "N/A"
  , url := it.url.getD ""
  , description := descOf (it.description.getD "")
  , source := "Arbeitnow"
  , date := it.created_at.getD "" }

/-- bot.py `fetch_arbeitnow`. -/
def fetch_arbeitnow : FetchOutcome (List AbnItem) → List Posting
  | .failure => []
  | .ok data =>
    (data.filter (fun it => containsKw (abnSearchText it))).map abnPosting

/-- bot.py `fetch_jobs`: `asyncio.gather` of both adapters, then
concatenation in adapter order. Each adapter has already turned its own
failure into `[]`, so gather never sees an exception. -/
def fetch_jobs (r1 : FetchOutcome (List RokItem))
    (r2 : FetchOutcome (List AbnItem)) : List Posting :=
  fetch_remoteok r1 ++ fetch_arbeitnow r2

/-! ## Draft generator (bot.py lines 171-213) -/

/-- Outcome of the Groq HTTP interaction as `generate_candidature` sees
it: `transportError` is an exception raised by the client (timeout,
connection error, JSON parse error), `response` is an HTTP response with
its status code and the result of extracting
`data["choices"][0]["message"]["content"]` (`none` when the body is
malformed and that extraction raises). -/
inductive GroqResult where
  | transportError
  | response (status : Nat) (content : Option String)
deriving DecidableEq

def placeholderMsg : String := "⚠️ Erreur lors de la génération de la candidature."

/-- The user prompt built from the posting and the profile (content is
irrelevant to every claim; kept for fidelity of the data flow). -/
def user_prompt (job : Posting) (profil : Profil) : String :=
  "Poste : " ++ job.title ++ "\nEntreprise : " ++ job.company
    ++ "\nDescription : " ++ job.description
    ++ "\n\nProfil du candidat :\n- Nom : " ++ profil.nom
    ++ "\n- Compétences : " ++ profil.competences
    ++ "\n- Expérience : " ++ profil.experience
    ++ "\n- Portfolio : " ++ profil.portfolio
    ++ "\n\nRédige un message de candidature court et percutant pour ce poste."

/-- bot.py `generate_candidature`: non-200 status returns the placeholder;
an exception anywhere in the try block (transport, JSON parsing, missing
keys) is caught and returns the placeholder; otherwise the extracted
content is returned. Total by construction: it never raises. -/
def generate_candidature (job : Posting) (profil : Profil)
    (r : GroqResult) : String :=
  match r with
  | .transportError => placeholderMsg
  | .response status content =>
    if status ≠ 200 then placeholderMsg
    else
      match content with
      | some text => text
      | none => placeholderMsg

/-! ## Delivery tracker and batch dispatch (bot.py lines 263-325, 441-492)

`sent_jobs` is a Python `set` of posting-id strings; it is embedded as a
`List String` used only through membership and insertion. Telegram
`send_message` outcomes for the per-posting messages are an oracle
`Env : Nat → Bool × Bool`: for the posting at batch index `i`, `(env i).1`
tells whether the primary MarkdownV2 send succeeds and `(env i).2` whether
the plain-text fallback send would succeed if attempted. (`generate_candidature`
and `format_job_message` are total, so inside the per-posting `try` only
the send can raise.) -/

abbrev Env := Nat → Bool × Bool

/-- Python `set.add`. -/
def insertSent (id : String) (s : List String) : List String :=
  if id ∈ s then s else id :: s

/-- Record of the delivery attempt for one batch posting: `fallbackOk` is
true only when the fallback was attempted (primary failed) and succeeded. -/
structure Attempt where
  jobId : String
  primaryOk : Bool
  fallbackOk : Bool
deriving DecidableEq

def Attempt.delivered (a : Attempt) : Bool := a.primaryOk || a.fallbackOk

def mkAttempt (env : Env) (i : Nat) (j : Posting) : Attempt :=
  ⟨j.id, (env i).1, !(env i).1 && (env i).2⟩

/-- Tracker update for one posting, mirroring the `try/except` in the
dispatch loop: `sent_jobs.add` runs right after the send that succeeded,
and is skipped when both sends fail. -/
def markStep (env : Env) (i : Nat) (j : Posting) (sent : List String) :
    List String :=
  if (env i).1 then insertSent j.id sent
  else if (env i).2 then insertSent j.id sent
  else sent

/-- The `for job in batch:` loop shared by `missions_command` and
`scheduled_prospection`: generate, attempt delivery (with one fallback),
mark sent on success, continue on failure. Returns the updated tracker and
the per-posting attempt log. -/
def runBatch (env : Env) : Nat → List Posting → List String →
    List String × List Attempt
  | _, [], sent => (sent, [])
  | i, j :: rest, sent =>
    ((runBatch env (i + 1) rest (markStep env i j sent)).1,
     mkAttempt env i j :: (runBatch env (i + 1) rest (markStep env i j sent)).2)

/-- Ids whose delivery (primary or fallback) succeeded, in batch order. -/
def deliveredIds (log : List Attempt) : List String :=
  (log.filter (fun a => a.delivered)).map (fun a => a.jobId)

/-- The filter `[j for j in jobs if j["id"] not in sent_jobs]`. -/
def newJobs (jobs : List Posting) (sent : List String) : List Posting :=
  jobs.filter (fun j => decide (j.id ∉ sent))

/-- Messages sent to the chat, abstracted to their kind and the data the
claims mention. Failed sends produce no message. -/
inductive BotMsg where
  | searching
  | noNew
  | found (total batchLen : Nat)
  | jobMsg (id : String) (fallback : Bool)
  | doneMsg (batchLen : Nat)
  | autoHeader (total : Nat)
  | autoOn
  | autoOff
deriving DecidableEq

/-- The per-posting messages that actually reached the chat. -/
def attemptMsgs (log : List Attempt) : List BotMsg :=
  log.filterMap (fun a =>
    if a.primaryOk then some (.jobMsg a.jobId false)
    else if a.fallbackOk then some (.jobMsg a.jobId true)
    else none)

structure MissionsOut where
  sentAfter : List String
  batch : List Posting
  log : List Attempt
  msgs : List BotMsg
  drafts : Nat
deriving DecidableEq

/-- bot.py `missions_command` (the on-demand dispatch path), as a function
of the fetched jobs and the delivery oracle. When no new postings exist
the code returns early after the no-new-missions notice; that early return
leaves the tracker untouched, which coincides with running the loop on the
empty batch, so a single path models both. `drafts` counts
`generate_candidature` calls (one per batch posting; generation never
raises). The profile only flows into the generated text. -/
def missions_command (env : Env) (jobs : List Posting) (profil : Profil)
    (sent : List String) : MissionsOut :=
  let new := newJobs jobs sent
  let batch := new.take 5
  { sentAfter := (runBatch env 0 batch sent).1
  , batch := batch
  , log := (runBatch env 0 batch sent).2
  , msgs :=
      if new.isEmpty then [.searching, .noNew]
      else [.searching, .found new.length batch.length]
        ++ attemptMsgs (runBatch env 0 batch sent).2
        ++ [.doneMsg batch.length]
  , drafts := batch.length }

/-! ## Bot state, auto toggle, scheduled path (bot.py lines 328-347, 441-492) -/

/-- The `context.bot_data` fields the core reads and writes. -/
structure BotState where
  auto_enabled : Bool
  auto_chat_id : Option Int
  profile : Profil
  sent_jobs : List String
deriving DecidableEq

/-- bot.py `auto_command`: flip `auto_enabled`; when the new value is
enabled, store the issuing chat id as `auto_chat_id`; when disabled,
change nothing else. -/
def auto_command (chat_id : Int) (st : BotState) : BotState × BotMsg :=
  if !st.auto_enabled then
    ({ st with auto_enabled := true, auto_chat_id := some chat_id }, .autoOn)
  else
    ({ st with auto_enabled := false }, .autoOff)

structure SchedOut where
  state : BotState
  msgs : List BotMsg
  fetched : Bool
  log : List Attempt
  drafts : Nat
deriving DecidableEq

/-- bot.py `scheduled_prospection`: return immediately when auto mode is
disabled or no usable chat id is stored (`if not chat_id` is false for
`None` and for `0`); otherwise fetch, filter the already-sent ids, and
when new postings exist announce them and run the same batch loop as the
on-demand path. With no new postings it returns before sending anything. -/
def scheduled_prospection (env : Env) (jobs : List Posting)
    (st : BotState) : SchedOut :=
  if !st.auto_enabled then ⟨st, [], false, [], 0⟩
  else
    match st.auto_chat_id with
    | none => ⟨st, [], false, [], 0⟩
    | some c =>
      if c = 0 then ⟨st, [], false, [], 0⟩
      else
        let new := newJobs jobs st.sent_jobs
        if new.isEmpty then ⟨st, [], true, [], 0⟩
        else
          let batch := new.take 5
          ⟨{ st with sent_jobs := (runBatch env 0 batch st.sent_jobs).1 },
           .autoHeader new.length :: attemptMsgs (runBatch env 0 batch st.sent_jobs).2,
           true, (runBatch env 0 batch st.sent_jobs).2, batch.length⟩

/-! ## Concrete inputs used by witnesses and counterexamples -/

/-- Delivery oracle on which every send succeeds. -/
def EnvT : Env := fun _ => (true, true)

/-- Delivery oracle on which every send fails, fallback included. -/
def EnvF : Env := fun _ => (false, false)

def Pw : Posting :=
  { id := "rok-1", title := "Backend Dev", company := "Acme", url := ""
  , description := "", source := "RemoteOK", date := "" }

def mkJob (s : String) : Posting :=
  { id := s, title := "T", company := "", url := "", description := ""
  , source := "", date := "" }

/-- Twelve postings with distinct ids "0" .. "11". -/
def jobs12 : List Posting := (List.range 12).map (fun n => mkJob (toString n))

def jw7 : Posting := mkJob "7"

/-- RemoteOK metadata element (`data[0]`, always skipped). -/
def rokMeta : RokItem := {}

def rokDup1 : RokItem := { id := some "7", position := some "React Dev A" }

def rokDup2 : RokItem := { id := some "7", position := some "React Dev B" }

def abnW : AbnItem := { slug := some "x1", title := some "Python Backend" }

/-- State with auto mode off but a previously stored destination. -/
def stA : BotState :=
  { auto_enabled := false, auto_chat_id := some 111
  , profile := PROFIL_DEFAUT, sent_jobs := [] }

/-- State with auto mode on and a stored destination. -/
def stB : BotState :=
  { auto_enabled := true, auto_chat_id := some 111
  , profile := PROFIL_DEFAUT, sent_jobs := [] }

/-- State with auto mode off, used by the scheduled-path witness. -/
def stC : BotState :=
  { auto_enabled := false, auto_chat_id := none
  , profile := PROFIL_DEFAUT, sent_jobs := [] }

/-- Raw description whose cleaned form is 501 characters with a space at
index 499, so that truncation to 500 ends in a space. -/
def longRaw : String := String.mk (List.replicate 499 'a' ++ [' ', 'b'])

/-- Small raw description exercising tags and padding, for the C6 witness. -/
def cleanEx : String := " hello <b>world</b> "

/-! # Theorems -/

/-! ## Generic helper lemmas about the embedded operations -/

theorem ne_of_data_ne {s t : String} (h : s.data ≠ t.data) : s ≠ t :=
  fun he => h (by rw [he])

theorem insertSent_mem (x id : String) (s : List String) :
    x ∈ insertSent id s ↔ x = id ∨ x ∈ s := by
  unfold insertSent
  split
  · constructor
    · exact fun h => Or.inr h
    · rintro (rfl | h)
      · assumption
      · exact h
  · simp [List.mem_cons]

theorem mem_newJobs (j : Posting) (jobs : List Posting) (sent : List String) :
    j ∈ newJobs jobs sent ↔ j ∈ jobs ∧ j.id ∉ sent := by
  simp [newJobs]

theorem runBatch_log_ids (env : Env) :
    ∀ (i : Nat) (batch : List Posting) (sent : List String),
      (runBatch env i batch sent).2.map Attempt.jobId = batch.map Posting.id := by
  intro i batch
  induction batch generalizing i with
  | nil => intro sent; rfl
  | cons j rest ih => intro sent; simp [runBatch, mkAttempt, ih]

theorem deliveredIds_cons (a : Attempt) (log : List Attempt) :
    deliveredIds (a :: log) =
      if a.delivered then a.jobId :: deliveredIds log else deliveredIds log := by
  unfold deliveredIds
  rw [List.filter_cons]
  split <;> simp_all

theorem runBatch_sent_mem (env : Env) :
    ∀ (i : Nat) (batch : List Posting) (sent : List String) (x : String),
      x ∈ (runBatch env i batch sent).1 ↔
        x ∈ sent ∨ x ∈ deliveredIds (runBatch env i batch sent).2 := by
  intro i batch
  induction batch generalizing i with
  | nil => intro sent x; simp [runBatch, deliveredIds]
  | cons j rest ih =>
    intro sent x
    cases h1 : (env i).1 <;> cases h2 : (env i).2 <;>
      simp [runBatch, markStep, deliveredIds_cons, mkAttempt, Attempt.delivered,
        h1, h2, insertSent_mem, ih, List.mem_cons] <;>
      tauto

theorem runBatch_getElem (env : Env) :
    ∀ (i k : Nat) (batch : List Posting) (sent : List String),
      (runBatch env i batch sent).2[k]? = (batch[k]?).map (mkAttempt env (i + k)) := by
  intro i k batch
  induction batch generalizing i k with
  | nil => intro sent; simp [runBatch]
  | cons j rest ih =>
    intro sent
    cases k with
    | zero => simp [runBatch]
    | succ k =>
      have harith : i + 1 + k = i + (k + 1) := by omega
      simp [runBatch, ih (i + 1) k, harith]

theorem deliveredIds_sub (log : List Attempt) :
    List.Sublist (deliveredIds log) (log.map Attempt.jobId) :=
  (List.filter_sublist _).map _

theorem batch_sub (jobs : List Posting) (sent : List String) :
    List.Sublist ((newJobs jobs sent).take 5) jobs :=
  (List.take_sublist 5 _).trans (List.filter_sublist _)

theorem batch_ids_count (jobs : List Posting) (sent : List String) (x : String) :
    (((newJobs jobs sent).take 5).map Posting.id).count x ≤
      (jobs.map Posting.id).count x :=
  ((batch_sub jobs sent).map Posting.id).count_le x

theorem mem_batch (j : Posting) (jobs : List Posting) (sent : List String)
    (h : j ∈ (newJobs jobs sent).take 5) : j ∈ jobs ∧ j.id ∉ sent :=
  (mem_newJobs j jobs sent).mp ((List.take_sublist 5 _).subset h)

/-! ## C2 -/

/-- C2: if one adapter fails and the other succeeds, `fetch_jobs` returns
exactly the successful adapter's postings; a failing adapter contributes
`[]` and (being total) never raises out of the aggregation. -/
theorem partial_source_failure :
    (fetch_remoteok .failure = [] ∧ fetch_arbeitnow .failure = []) ∧
    (∀ d2 : List AbnItem, fetch_jobs .failure (.ok d2) = fetch_arbeitnow (.ok d2)) ∧
    (∀ d1 : List RokItem, fetch_jobs (.ok d1) .failure = fetch_remoteok (.ok d1)) := by
  refine ⟨⟨rfl, rfl⟩, ?_, ?_⟩ <;>
    intro d <;> simp [fetch_jobs, fetch_remoteok, fetch_arbeitnow]

/-! ## C7 -/

/-- C7: `generate_candidature` is total over service errors: a transport
failure, a non-200 status, or a malformed response body each yield the
fixed placeholder string, and the function never raises (it is a total
Lean function). -/
theorem draft_generator_total (job : Posting) (profil : Profil) :
    generate_candidature job profil .transportError = placeholderMsg ∧
    (∀ (s : Nat) (c : Option String), s ≠ 200 →
      generate_candidature job profil (.response s c) = placeholderMsg) ∧
    (∀ s : Nat, generate_candidature job profil (.response s none) = placeholderMsg) := by
  refine ⟨rfl, ?_, ?_⟩
  · intro s c hs
    simp [generate_candidature, hs]
  · intro s
    by_cases hs : s = 200 <;> simp [generate_candidature, hs]

/-- Witness for C7 at a concrete error response. -/
theorem draft_generator_total_witness :
    generate_candidature Pw PROFIL_DEFAUT (.response 500 (some "text")) = placeholderMsg :=
  (draft_generator_total Pw PROFIL_DEFAUT).2.1 500 (some "text") (by decide)

/-! ## C9 -/

/-- C9 counterexample: with auto mode disabled and destination 111 stored,
toggling from chat 222 re-enables but sets the destination to 222 — it
does not reuse the stored destination 111, contradicting the claim that
re-enabling reuses the last stored destination even from a different
context. -/
theorem auto_destination_cex :
    stA.auto_enabled = false ∧ stA.auto_chat_id = some 111 ∧
    (auto_command 222 stA).1.auto_enabled = true ∧
    (auto_command 222 stA).1.auto_chat_id = some 222 ∧
    (auto_command 222 stA).1.auto_chat_id ≠ some 111 := by
  refine ⟨rfl, rfl, rfl, rfl, by decide⟩

/-- C9 amended: disabling flips only the flag — destination, tracker and
profile are untouched; enabling stores the issuing chat as the
destination (so re-enabling from the same chat reuses it, while
re-enabling from a different chat overwrites it). -/
theorem auto_toggle_amended (chat_id : Int) (st : BotState) :
    (st.auto_enabled = true →
      (auto_command chat_id st).1 = { st with auto_enabled := false }) ∧
    (st.auto_enabled = false →
      (auto_command chat_id st).1 =
        { st with auto_enabled := true, auto_chat_id := some chat_id }) := by
  constructor <;> intro h <;> simp [auto_command, h]

/-- Witness for C9 at a concrete enabled state. -/
theorem auto_toggle_amended_witness :
    (auto_command 222 stB).1 = { stB with auto_enabled := false } :=
  (auto_toggle_amended 222 stB).1 rfl

/-! ## C10 -/

/-- C10: with auto mode disabled, or no stored destination (including the
falsy chat id 0), a scheduled invocation changes nothing, sends nothing,
fetches nothing and generates nothing; when enabled with a destination but
no new postings, it fetches but still sends nothing — while the on-demand
path sends an explicit no-new-postings notice in that situation. -/
theorem scheduled_guard (env : Env) (jobs : List Posting) (st : BotState) :
    ((st.auto_enabled = false ∨ st.auto_chat_id = none ∨ st.auto_chat_id = some 0) →
      scheduled_prospection env jobs st = ⟨st, [], false, [], 0⟩) ∧
    (st.auto_enabled = true → ∀ c : Int, st.auto_chat_id = some c → c ≠ 0 →
      (newJobs jobs st.sent_jobs).isEmpty = true →
      scheduled_prospection env jobs st = ⟨st, [], true, [], 0⟩) ∧
    (∀ (env2 : Env) (jobs2 : List Posting) (profil : Profil) (sent2 : List String),
      (newJobs jobs2 sent2).isEmpty = true →
      BotMsg.noNew ∈ (missions_command env2 jobs2 profil sent2).msgs) := by
  refine ⟨?_, ?_, ?_⟩
  · rintro (h | h | h)
    · simp [scheduled_prospection, h]
    · by_cases he : st.auto_enabled <;> simp [scheduled_prospection, he, h]
    · by_cases he : st.auto_enabled <;> simp [scheduled_prospection, he, h]
  · intro he c hc hc0 hempty
    simp [scheduled_prospection, he, hc, hc0, hempty]
  · intro env2 jobs2 profil sent2 hempty
    simp [missions_command, hempty]

/-- Witness for C10 at a concrete disabled state. -/
theorem scheduled_guard_witness :
    scheduled_prospection EnvT [Pw] stC = ⟨stC, [], false, [], 0⟩ :=
  (scheduled_guard EnvT [Pw] stC).1 (Or.inl rfl)

/-! ## C5 -/

theorem lowerPairs_range :
    ∀ p ∈ lowerPairs, ∀ q ∈ lowerPairs, ¬ (q.1 = p.2) := by decide

theorem pyLowerChar_idem (c : Char) :
    pyLowerChar (pyLowerChar c) = pyLowerChar c := by
  cases h : lowerPairs.find? (fun p => p.1 == c) with
  | none =>
    have hc : pyLowerChar c = c := by unfold pyLowerChar; rw [h]
    rw [hc, hc]
  | some p =>
    have hc : pyLowerChar c = p.2 := by unfold pyLowerChar; rw [h]
    rw [hc]
    have hp : p ∈ lowerPairs := List.mem_of_find?_eq_some h
    have hnone : lowerPairs.find? (fun q => q.1 == p.2) = none := by
      rw [List.find?_eq_none]
      intro q hq hqe
      exact lowerPairs_range p hp q hq (by simpa using hqe)
    unfold pyLowerChar
    rw [hnone]

theorem pyLower_idem (s : String) : pyLower (pyLower s) = pyLower s := by
  unfold pyLower
  refine congrArg String.mk ?_
  rw [List.map_map]
  exact List.map_congr_left (fun c _ => by simp [Function.comp, pyLowerChar_idem])

/-- C5: the relevance test is exactly "some keyword from the fixed list
occurs as a substring"; the text it is applied to is already
case-normalized (lowercasing it again changes nothing), so the test is
case-insensitive in the posting's original fields; the two concrete
postings from the spec filter as claimed. -/
theorem keyword_filter :
    (∀ text : String, containsKw text = true ↔
      ∃ kw ∈ KEYWORDS, isSubstrB kw.data text.data = true) ∧
    (∀ it : RokItem, pyLower (rokSearchText it) = rokSearchText it) ∧
    containsKw (rokSearchText { position := some "Senior React Developer" }) = true ∧
    containsKw (rokSearchText { position := some "Warehouse Associate" }) = false := by
  refine ⟨?_, ?_, by decide, by decide⟩
  · intro text
    simp [containsKw, List.any_eq_true]
  · intro it
    unfold rokSearchText
    exact pyLower_idem _

/-! ## C8 -/

theorem rokAbnNe (s t : String) : "rok-" ++ s ≠ "abn-" ++ t := by
  obtain ⟨ls⟩ := s
  obtain ⟨lt⟩ := t
  apply ne_of_data_ne
  show 'r' :: 'o' :: 'k' :: '-' :: ls ≠ 'a' :: 'b' :: 'n' :: '-' :: lt
  simp

theorem append_left_inj (pre : String) :
    Function.Injective (fun s : String => pre ++ s) := by
  intro a b h
  obtain ⟨la⟩ := a
  obtain ⟨lb⟩ := b
  obtain ⟨lp⟩ := pre
  have h2 : lp ++ la = lp ++ lb := congrArg String.data h
  exact congrArg String.mk (List.append_cancel_left h2)

theorem rok_ids (d : List RokItem) :
    (fetch_remoteok (.ok d)).map Posting.id =
      ((d.drop 1).filter (fun it => containsKw (rokSearchText it))).map
        (fun it => "rok-" ++ it.id.getD "") := by
  simp only [fetch_remoteok]
  rw [List.map_map]
  rfl

theorem abn_ids (d : List AbnItem) :
    (fetch_arbeitnow (.ok d)).map Posting.id =
      (d.filter (fun it => containsKw (abnSearchText it))).map
        (fun it => "abn-" ++ it.slug.getD "") := by
  simp only [fetch_arbeitnow]
  rw [List.map_map]
  rfl

theorem nodup_map_filter {α β : Type} (f : α → β) (p : α → Bool) (l : List α)
    (h : (l.map f).Nodup) : ((l.filter p).map f).Nodup :=
  List.Nodup.sublist ((List.filter_sublist l).map f) h

/-- C8 counterexample: two RemoteOK items with the same native id yield,
in a single fetch, two distinct postings (different titles) with the same
posting id "rok-7", so distinct postings within one fetch need not have
distinct ids. -/
theorem posting_id_cex :
    (fetch_remoteok (.ok [rokMeta, rokDup1, rokDup2])).map Posting.id =
      ["rok-7", "rok-7"] ∧
    (fetch_remoteok (.ok [rokMeta, rokDup1, rokDup2])).map Posting.title =
      ["React Dev A", "React Dev B"] ∧
    ¬ ((fetch_remoteok (.ok [rokMeta, rokDup1, rokDup2])).map Posting.id).Nodup := by
  refine ⟨by decide, by decide, by decide⟩

/-- C8 amended: ids are namespaced "rok-"/"abn-" per source, so a RemoteOK
posting never shares an id with an Arbeitnow posting; within one fetch,
distinct postings have distinct ids provided the raw native ids from each
source are themselves distinct (the adapters inherit uniqueness from the
upstream ids and do not enforce it). -/
theorem posting_id_amended (d1 : List RokItem) (d2 : List AbnItem) :
    (∀ p ∈ fetch_remoteok (.ok d1), ∀ q ∈ fetch_arbeitnow (.ok d2), p.id ≠ q.id) ∧
    (((d1.drop 1).map (fun it => it.id.getD "")).Nodup →
      (d2.map (fun it => it.slug.getD "")).Nodup →
      ((fetch_jobs (.ok d1) (.ok d2)).map Posting.id).Nodup) := by
  constructor
  · intro p hp q hq
    simp only [fetch_remoteok, List.mem_map] at hp
    obtain ⟨it, -, rfl⟩ := hp
    simp only [fetch_arbeitnow, List.mem_map] at hq
    obtain ⟨jt, -, rfl⟩ := hq
    simpa [rokPosting, abnPosting] using rokAbnNe (it.id.getD "") (jt.slug.getD "")
  · intro h1 h2
    have e : (fetch_jobs (.ok d1) (.ok d2)).map Posting.id =
        (fetch_remoteok (.ok d1)).map Posting.id ++
          (fetch_arbeitnow (.ok d2)).map Posting.id := by
      simp [fetch_jobs]
    rw [e, List.nodup_append]
    refine ⟨?_, ?_, ?_⟩
    · rw [rok_ids]
      have hm : ((d1.drop 1).filter (fun it => containsKw (rokSearchText it))).map
            (fun it => "rok-" ++ it.id.getD "") =
          (((d1.drop 1).filter (fun it => containsKw (rokSearchText it))).map
            (fun it => it.id.getD "")).map (fun s => "rok-" ++ s) := by
        rw [List.map_map]; rfl
      rw [hm]
      exact (nodup_map_filter _ _ _ h1).map (append_left_inj "rok-")
    · rw [abn_ids]
      have hm : (d2.filter (fun it => containsKw (abnSearchText it))).map
            (fun it => "abn-" ++ it.slug.getD "") =
          ((d2.filter (fun it => containsKw (abnSearchText it))).map
            (fun it => it.slug.getD "")).map (fun s => "abn-" ++ s) := by
        rw [List.map_map]; rfl
      rw [hm]
      exact (nodup_map_filter _ _ _ h2).map (append_left_inj "abn-")
    · rw [List.disjoint_left]
      intro a ha hb
      rw [rok_ids] at ha
      rw [abn_ids] at hb
      obtain ⟨it, -, rfl⟩ := List.mem_map.mp ha
      obtain ⟨jt, -, hq⟩ := List.mem_map.mp hb
      exact rokAbnNe (it.id.getD "") (jt.slug.getD "") hq.symm

/-- Witness for C8 at concrete fetches with distinct native ids. -/
theorem posting_id_amended_witness :
    ((fetch_jobs (.ok [rokMeta, rokDup1]) (.ok [abnW])).map Posting.id).Nodup ∧
    (rokPosting rokDup1).id ≠ (abnPosting abnW).id := by
  constructor
  · exact (posting_id_amended [rokMeta, rokDup1] [abnW]).2 (by decide) (by decide)
  · exact (posting_id_amended [rokMeta, rokDup1] [abnW]).1
      (rokPosting rokDup1) (by decide) (abnPosting abnW) (by decide)

/-! ## Projections of `missions_command` (each is definitional) -/

theorem missions_batch_eq (env : Env) (jobs : List Posting) (profil : Profil)
    (sent : List String) :
    (missions_command env jobs profil sent).batch = (newJobs jobs sent).take 5 := rfl

theorem missions_log_eq (env : Env) (jobs : List Posting) (profil : Profil)
    (sent : List String) :
    (missions_command env jobs profil sent).log =
      (runBatch env 0 ((newJobs jobs sent).take 5) sent).2 := rfl

theorem missions_sent_eq (env : Env) (jobs : List Posting) (profil : Profil)
    (sent : List String) :
    (missions_command env jobs profil sent).sentAfter =
      (runBatch env 0 ((newJobs jobs sent).take 5) sent).1 := rfl

theorem missions_drafts_eq (env : Env) (jobs : List Posting) (profil : Profil)
    (sent : List String) :
    (missions_command env jobs profil sent).drafts =
      ((newJobs jobs sent).take 5).length := rfl

theorem delivered_count_le (env : Env) (jobs : List Posting) (profil : Profil)
    (sent : List String) (x : String) :
    (deliveredIds (missions_command env jobs profil sent).log).count x ≤
      (jobs.map Posting.id).count x := by
  rw [missions_log_eq]
  have h1 := (deliveredIds_sub (runBatch env 0 ((newJobs jobs sent).take 5) sent).2).count_le x
  rw [runBatch_log_ids] at h1
  exact h1.trans (batch_ids_count jobs sent x)

theorem delivered_mem_batch_ids (env : Env) (jobs : List Posting) (profil : Profil)
    (sent : List String) (x : String)
    (h : x ∈ deliveredIds (missions_command env jobs profil sent).log) :
    x ∈ ((newJobs jobs sent).take 5).map Posting.id := by
  rw [missions_log_eq] at h
  have h2 := (deliveredIds_sub (runBatch env 0 ((newJobs jobs sent).take 5) sent).2).subset h
  rwa [runBatch_log_ids] at h2

theorem nodup_index_unique {α : Type} [DecidableEq α] :
    ∀ (l : List α), l.Nodup → ∀ (m k : Nat) (x : α),
      l[m]? = some x → l[k]? = some x → m = k := by
  intro l
  induction l with
  | nil => intro _ m k x hm; simp at hm
  | cons a t ih =>
    intro h m k x hm hk
    have hnd := List.nodup_cons.mp h
    match m, k with
    | 0, 0 => rfl
    | 0, k + 1 =>
      rw [List.getElem?_cons_zero] at hm
      rw [List.getElem?_cons_succ] at hk
      obtain rfl : a = x := by injection hm
      exact absurd (List.getElem?_mem hk) hnd.1
    | m + 1, 0 =>
      rw [List.getElem?_cons_zero] at hk
      rw [List.getElem?_cons_succ] at hm
      obtain rfl : a = x := by injection hk
      exact absurd (List.getElem?_mem hm) hnd.1
    | m + 1, k + 1 =>
      rw [List.getElem?_cons_succ] at hm hk
      exact congrArg (· + 1) (ih hnd.2 m k x hm hk)

/-! ## C3 -/

/-- C3: one dispatch processes at most the first five new postings (in
aggregation order); with twelve distinct new unseen postings exactly five
are processed (five drafts) while the remaining seven stay unmarked in the
tracker and are rediscovered by a subsequent invocation over the same
jobs. -/
theorem batch_cap (env : Env) (jobs : List Posting) (profil : Profil)
    (sent : List String) :
    (missions_command env jobs profil sent).batch = (newJobs jobs sent).take 5 ∧
    (missions_command env jobs profil sent).batch.length ≤ 5 ∧
    ((newJobs jobs sent).length = 12 →
      ((newJobs jobs sent).map Posting.id).Nodup →
      (missions_command env jobs profil sent).batch.length = 5 ∧
      (missions_command env jobs profil sent).drafts = 5 ∧
      ∀ j ∈ (newJobs jobs sent).drop 5,
        j.id ∉ (missions_command env jobs profil sent).sentAfter ∧
        j ∈ newJobs jobs (missions_command env jobs profil sent).sentAfter) := by
  refine ⟨missions_batch_eq env jobs profil sent, ?_, ?_⟩
  · rw [missions_batch_eq]
    exact List.length_take_le 5 _
  · intro h12 hnodup
    have hlen : (missions_command env jobs profil sent).batch.length = 5 := by
      rw [missions_batch_eq, List.length_take, h12]
      decide
    refine ⟨hlen, ?_, ?_⟩
    · rw [missions_drafts_eq, List.length_take, h12]
      decide
    · intro j hj
      have hjnew : j ∈ newJobs jobs sent := (List.drop_sublist 5 _).subset hj
      have hjin := (mem_newJobs j jobs sent).mp hjnew
      have hsplit : ((newJobs jobs sent).take 5).map Posting.id ++
          ((newJobs jobs sent).drop 5).map Posting.id =
          (newJobs jobs sent).map Posting.id := by
        rw [← List.map_append, List.take_append_drop]
      have hnodup2 : (((newJobs jobs sent).take 5).map Posting.id ++
          ((newJobs jobs sent).drop 5).map Posting.id).Nodup := by
        rw [hsplit]; exact hnodup
      have hdisj := (List.nodup_append.mp hnodup2).2.2
      have hjdrop : j.id ∈ ((newJobs jobs sent).drop 5).map Posting.id :=
        List.mem_map_of_mem Posting.id hj
      have hnotin_take : j.id ∉ ((newJobs jobs sent).take 5).map Posting.id :=
        fun hmem => (List.disjoint_left.mp hdisj hmem) hjdrop
      have hnot : j.id ∉ (missions_command env jobs profil sent).sentAfter := by
        intro habs
        rw [missions_sent_eq] at habs
        rcases (runBatch_sent_mem env 0 _ sent j.id).mp habs with hsent | hdel
        · exact hjin.2 hsent
        · have hmem := (deliveredIds_sub _).subset hdel
          rw [runBatch_log_ids] at hmem
          exact hnotin_take hmem
      exact ⟨hnot, (mem_newJobs j jobs _).mpr ⟨hjin.1, hnot⟩⟩

/-- Witness for C3 at twelve concrete postings with distinct ids. -/
theorem batch_cap_witness :
    (missions_command EnvT jobs12 PROFIL_DEFAUT []).batch.length = 5 ∧
    (missions_command EnvT jobs12 PROFIL_DEFAUT []).drafts = 5 ∧
    jw7.id ∉ (missions_command EnvT jobs12 PROFIL_DEFAUT []).sentAfter ∧
    jw7 ∈ newJobs jobs12 (missions_command EnvT jobs12 PROFIL_DEFAUT []).sentAfter := by
  have h := (batch_cap EnvT jobs12 PROFIL_DEFAUT []).2.2 (by decide) (by decide)
  have h7 := h.2.2 jw7 (by decide)
  exact ⟨h.1, h.2.1, h7.1, h7.2⟩

/-! ## C4 -/

/-- C4: an id is in the tracker after dispatch exactly when it was already
there or a delivery attempt for it (primary or fallback) succeeded; every
batch posting gets its attempt, so the batch continues past failures; and
a batch posting whose primary and fallback sends both fail is left
unmarked and included again by a subsequent dispatch over the same jobs. -/
theorem mark_after_delivery (env : Env) (jobs : List Posting) (profil : Profil)
    (sent : List String) :
    (∀ x : String, x ∈ (missions_command env jobs profil sent).sentAfter ↔
      x ∈ sent ∨ x ∈ deliveredIds (missions_command env jobs profil sent).log) ∧
    ((missions_command env jobs profil sent).log.map Attempt.jobId =
      (missions_command env jobs profil sent).batch.map Posting.id) ∧
    (∀ (k : Nat) (X : Posting),
      (missions_command env jobs profil sent).batch[k]? = some X →
      (env k).1 = false → (env k).2 = false →
      ((missions_command env jobs profil sent).batch.map Posting.id).Nodup →
      X.id ∉ (missions_command env jobs profil sent).sentAfter ∧
      X ∈ newJobs jobs (missions_command env jobs profil sent).sentAfter) := by
  refine ⟨?_, ?_, ?_⟩
  · intro x
    rw [missions_sent_eq, missions_log_eq]
    exact runBatch_sent_mem env 0 _ sent x
  · rw [missions_log_eq, missions_batch_eq]
    exact runBatch_log_ids env 0 _ sent
  · intro k X hk h1 h2 hnd
    rw [missions_batch_eq] at hk hnd
    have hXb : X ∈ (newJobs jobs sent).take 5 := List.getElem?_mem hk
    have hXin := mem_batch X jobs sent hXb
    have hnotdel : X.id ∉ deliveredIds (missions_command env jobs profil sent).log := by
      intro hdel
      rw [missions_log_eq] at hdel
      simp only [deliveredIds, List.mem_map, List.mem_filter] at hdel
      obtain ⟨a, ⟨ha_mem, ha_del⟩, ha_id⟩ := hdel
      obtain ⟨m, hm⟩ := List.getElem?_of_mem ha_mem
      rw [runBatch_getElem] at hm
      obtain ⟨j, hj, rfl⟩ := Option.map_eq_some'.mp hm
      have hmj : (((newJobs jobs sent).take 5).map Posting.id)[m]? = some j.id := by
        rw [List.getElem?_map, hj]; rfl
      have hkX : (((newJobs jobs sent).take 5).map Posting.id)[k]? = some X.id := by
        rw [List.getElem?_map, hk]; rfl
      have hjid : j.id = X.id := ha_id
      rw [hjid] at hmj
      have hmk : m = k := nodup_index_unique _ hnd m k X.id hmj hkX
      rw [hmk] at ha_del
      simp [mkAttempt, Attempt.delivered, Nat.zero_add, h1, h2] at ha_del
    have hnot : X.id ∉ (missions_command env jobs profil sent).sentAfter := by
      intro habs
      rw [missions_sent_eq] at habs
      rcases (runBatch_sent_mem env 0 _ sent X.id).mp habs with hsent | hdel
      · exact hXin.2 hsent
      · exact hnotdel (by rw [missions_log_eq]; exact hdel)
    exact ⟨hnot, (mem_newJobs X jobs _).mpr ⟨hXin.1, hnot⟩⟩

/-- Witness for C4 at a concrete posting whose both sends fail. -/
theorem mark_after_delivery_witness :
    Pw.id ∉ (missions_command EnvF [Pw] PROFIL_DEFAUT []).sentAfter ∧
    Pw ∈ newJobs [Pw] (missions_command EnvF [Pw] PROFIL_DEFAUT []).sentAfter :=
  (mark_after_delivery EnvF [Pw] PROFIL_DEFAUT []).2.2 0 Pw (by decide) rfl rfl (by decide)

/-! ## C1 -/

/-- C1: across two dispatches over the same jobs with the threaded
tracker, a posting P whose id occurs at most once among the fetched jobs
is delivered at most once; moreover once P is delivered by the first
dispatch, the second dispatch filters it out: it is not in the second
batch and no attempt (hence no draft and no message) is made for it. -/
theorem dispatch_idempotent (env1 env2 : Env) (jobs : List Posting)
    (profil : Profil) (sent : List String) (P : Posting)
    (huniq : (jobs.map Posting.id).count P.id ≤ 1) :
    (deliveredIds (missions_command env1 jobs profil sent).log ++
      deliveredIds (missions_command env2 jobs profil
        (missions_command env1 jobs profil sent).sentAfter).log).count P.id ≤ 1 ∧
    (P.id ∈ deliveredIds (missions_command env1 jobs profil sent).log →
      P ∉ (missions_command env2 jobs profil
        (missions_command env1 jobs profil sent).sentAfter).batch ∧
      ∀ a ∈ (missions_command env2 jobs profil
        (missions_command env1 jobs profil sent).sentAfter).log, a.jobId ≠ P.id) := by
  rw [List.count_append]
  by_cases hmem : P.id ∈ deliveredIds (missions_command env1 jobs profil sent).log
  · have hs : P.id ∈ (missions_command env1 jobs profil sent).sentAfter := by
      rw [missions_sent_eq]
      refine (runBatch_sent_mem env1 0 _ sent P.id).mpr (Or.inr ?_)
      rw [← missions_log_eq]
      exact hmem
    have hnob : ∀ y ∈ ((newJobs jobs
        (missions_command env1 jobs profil sent).sentAfter).take 5).map Posting.id,
        y ≠ P.id := by
      intro y hy hyP
      obtain ⟨j, hj, rfl⟩ := List.mem_map.mp hy
      exact (mem_batch j jobs _ hj).2 (hyP ▸ hs)
    have hc2 : (deliveredIds (missions_command env2 jobs profil
        (missions_command env1 jobs profil sent).sentAfter).log).count P.id = 0 := by
      refine List.count_eq_zero_of_not_mem ?_
      intro habs
      exact hnob P.id (delivered_mem_batch_ids env2 jobs profil _ P.id habs) rfl
    have hc1 : (deliveredIds (missions_command env1 jobs profil sent).log).count P.id ≤ 1 :=
      (delivered_count_le env1 jobs profil sent P.id).trans huniq
    refine ⟨by omega, fun _ => ⟨?_, ?_⟩⟩
    · intro hPb
      rw [missions_batch_eq] at hPb
      exact (mem_batch P jobs _ hPb).2 hs
    · intro a ha
      have hid : a.jobId ∈ (missions_command env2 jobs profil
          (missions_command env1 jobs profil sent).sentAfter).log.map Attempt.jobId :=
        List.mem_map_of_mem Attempt.jobId ha
      rw [missions_log_eq, runBatch_log_ids] at hid
      exact hnob a.jobId hid
  · have hc1 : (deliveredIds (missions_command env1 jobs profil sent).log).count P.id = 0 :=
      List.count_eq_zero_of_not_mem hmem
    have hc2 : (deliveredIds (missions_command env2 jobs profil
        (missions_command env1 jobs profil sent).sentAfter).log).count P.id ≤ 1 :=
      (delivered_count_le env2 jobs profil _ P.id).trans huniq
    exact ⟨by omega, fun h => absurd h hmem⟩

/-- Witness for C1 at one concrete posting delivered twice in a row. -/
theorem dispatch_idempotent_witness :
    (deliveredIds (missions_command EnvT [Pw] PROFIL_DEFAUT []).log ++
      deliveredIds (missions_command EnvT [Pw] PROFIL_DEFAUT
        (missions_command EnvT [Pw] PROFIL_DEFAUT []).sentAfter).log).count Pw.id ≤ 1 :=
  (dispatch_idempotent EnvT EnvT [Pw] PROFIL_DEFAUT [] Pw (by decide)).1

/-! ## C6: whitespace lemmas for the collapse and strip passes -/

theorem head_collapse_true : ∀ (l : List Char) (c : Char),
    (collapseAux true l).head? = some c → isPySpace c = false := by
  intro l
  induction l with
  | nil => intro c h; simp [collapseAux] at h
  | cons a rest ih =>
    intro c h
    cases ha : isPySpace a with
    | true =>
      rw [show collapseAux true (a :: rest) = collapseAux true rest from by
        simp [collapseAux, ha]] at h
      exact ih c h
    | false =>
      rw [show collapseAux true (a :: rest) = a :: collapseAux false rest from by
        simp [collapseAux, ha]] at h
      rw [List.head?_cons] at h
      obtain rfl : a = c := by injection h
      exact ha

theorem chain'_collapse : ∀ (l : List Char) (b : Bool),
    List.Chain' (fun a c => ¬(isPySpace a = true ∧ isPySpace c = true))
      (collapseAux b l) := by
  intro l
  induction l with
  | nil => intro b; simp [collapseAux]
  | cons a rest ih =>
    intro b
    cases ha : isPySpace a with
    | true =>
      cases b with
      | true =>
        rw [show collapseAux true (a :: rest) = collapseAux true rest from by
          simp [collapseAux, ha]]
        exact ih true
      | false =>
        rw [show collapseAux false (a :: rest) = ' ' :: collapseAux true rest from by
          simp [collapseAux, ha]]
        rw [List.chain'_cons']
        refine ⟨?_, ih true⟩
        intro y hy
        have hyns : isPySpace y = false := head_collapse_true rest y hy
        intro hcontra
        rw [hyns] at hcontra
        exact Bool.false_ne_true hcontra.2
    | false =>
      rw [show collapseAux b (a :: rest) = a :: collapseAux false rest from by
        simp [collapseAux, ha]]
      rw [List.chain'_cons']
      refine ⟨?_, ih false⟩
      intro y _
      intro hcontra
      rw [ha] at hcontra
      exact Bool.false_ne_true hcontra.1

theorem allws_collapse : ∀ (l : List Char) (b : Bool) (c : Char),
    c ∈ collapseAux b l → isPySpace c = true → c = ' ' := by
  intro l
  induction l with
  | nil => intro b c h; simp [collapseAux] at h
  | cons a rest ih =>
    intro b c h hc
    cases ha : isPySpace a with
    | true =>
      cases b with
      | true =>
        rw [show collapseAux true (a :: rest) = collapseAux true rest from by
          simp [collapseAux, ha]] at h
        exact ih true c h hc
      | false =>
        rw [show collapseAux false (a :: rest) = ' ' :: collapseAux true rest from by
          simp [collapseAux, ha]] at h
        rcases List.mem_cons.mp h with rfl | h2
        · rfl
        · exact ih true c h2 hc
    | false =>
      rw [show collapseAux b (a :: rest) = a :: collapseAux false rest from by
        simp [collapseAux, ha]] at h
      rcases List.mem_cons.mp h with rfl | h2
      · rw [hc] at ha; exact absurd ha (by decide)
      · exact ih false c h2 hc

theorem head_dropWhile_false {α : Type} {p : α → Bool} :
    ∀ (l : List α) (c : α), (l.dropWhile p).head? = some c → p c = false := by
  intro l
  induction l with
  | nil => intro c h; simp at h
  | cons a rest ih =>
    intro c h
    rw [List.dropWhile_cons] at h
    by_cases ha : p a
    · rw [if_pos ha] at h
      exact ih c h
    · rw [if_neg ha] at h
      rw [List.head?_cons] at h
      obtain rfl : a = c := by injection h
      exact Bool.eq_false_iff.mpr ha

theorem head?_of_prefix {α : Type} {l₁ l₂ : List α} (h : l₁ <+: l₂) (c : α)
    (hc : l₁.head? = some c) : l₂.head? = some c := by
  obtain ⟨t, rfl⟩ := h
  cases l₁ with
  | nil => simp at hc
  | cons a l =>
    rw [List.head?_cons] at hc
    rw [List.cons_append, List.head?_cons]
    exact hc

theorem dropTrailing_isPre (l : List Char) : dropTrailing l <+: l := by
  unfold dropTrailing
  nth_rewrite 2 [← List.reverse_reverse l]
  exact List.reverse_prefix.mpr (List.dropWhile_suffix _)

theorem getLast_dropTrailing (l : List Char) (c : Char)
    (h : (dropTrailing l).getLast? = some c) : isPySpace c = false := by
  unfold dropTrailing at h
  rw [List.getLast?_reverse] at h
  exact head_dropWhile_false _ c h

theorem pyStrip_head (l : List Char) (c : Char)
    (h : (pyStrip l).head? = some c) : isPySpace c = false := by
  unfold pyStrip at h
  have h2 := head?_of_prefix (dropTrailing_isPre (l.dropWhile isPySpace)) c h
  exact head_dropWhile_false _ c h2

theorem pyStrip_last (l : List Char) (c : Char)
    (h : (pyStrip l).getLast? = some c) : isPySpace c = false := by
  unfold pyStrip at h
  exact getLast_dropTrailing _ c h

theorem chain'_pyStrip {R : Char → Char → Prop} (l : List Char)
    (h : List.Chain' R l) : List.Chain' R (pyStrip l) := by
  unfold pyStrip
  exact List.Chain'.prefix
    (List.Chain'.suffix h (List.dropWhile_suffix _))
    (dropTrailing_isPre _)

theorem mem_pyStrip (l : List Char) (c : Char) (h : c ∈ pyStrip l) : c ∈ l := by
  unfold pyStrip at h
  have h2 := (dropTrailing_isPre (l.dropWhile isPySpace)).sublist.subset h
  exact (List.dropWhile_sublist _).subset h2

/-! ## C6: tag-freeness of the tag-stripping pass -/

theorem afterGt_length : ∀ (l r : List Char), afterGt l = some r →
    r.length < l.length := by
  intro l
  induction l with
  | nil => intro r h; simp [afterGt] at h
  | cons c rest ih =>
    intro r h
    by_cases hc : c = '>'
    · rw [afterGt, if_pos hc] at h
      obtain rfl : rest = r := by injection h
      simp
    · rw [afterGt, if_neg hc] at h
      exact Nat.lt_succ_of_lt (ih r h)

theorem afterGt_subset : ∀ (l r : List Char), afterGt l = some r →
    ∀ x ∈ r, x ∈ l := by
  intro l
  induction l with
  | nil => intro r h; simp [afterGt] at h
  | cons c rest ih =>
    intro r h x hx
    by_cases hc : c = '>'
    · rw [afterGt, if_pos hc] at h
      obtain rfl : rest = r := by injection h
      exact List.mem_cons_of_mem c hx
    · rw [afterGt, if_neg hc] at h
      exact List.mem_cons_of_mem c (ih r h x hx)

theorem afterGt_none : ∀ (l : List Char), afterGt l = none → '>' ∉ l := by
  intro l
  induction l with
  | nil => intro _ h; simp at h
  | cons c rest ih =>
    intro h hmem
    by_cases hc : c = '>'
    · rw [afterGt, if_pos hc] at h
      exact Option.noConfusion h
    · rw [afterGt, if_neg hc] at h
      rcases List.mem_cons.mp hmem with heq | h2
      · exact hc heq.symm
      · exact ih h h2

theorem tagEnd_length (l r : List Char) (h : tagEnd l = some r) :
    r.length < l.length := by
  cases l with
  | nil => simp [tagEnd] at h
  | cons c rest =>
    by_cases hc : c = '>'
    · rw [tagEnd, if_pos hc] at h
      exact Option.noConfusion h
    · rw [tagEnd, if_neg hc] at h
      exact Nat.lt_succ_of_lt (afterGt_length rest r h)

theorem tagEnd_subset (l r : List Char) (h : tagEnd l = some r) :
    ∀ x ∈ r, x ∈ l := by
  cases l with
  | nil => simp [tagEnd] at h
  | cons c rest =>
    by_cases hc : c = '>'
    · rw [tagEnd, if_pos hc] at h
      exact Option.noConfusion h
    · rw [tagEnd, if_neg hc] at h
      exact fun x hx => List.mem_cons_of_mem c (afterGt_subset rest r h x hx)

theorem stripTagsF_lt_some {fuel : Nat} {rest r : List Char}
    (h : tagEnd rest = some r) :
    stripTagsF (fuel + 1) ('<' :: rest) = ' ' :: stripTagsF fuel r := by
  simp [stripTagsF, h]

theorem stripTagsF_lt_none {fuel : Nat} {rest : List Char}
    (h : tagEnd rest = none) :
    stripTagsF (fuel + 1) ('<' :: rest) = '<' :: stripTagsF fuel rest := by
  simp [stripTagsF, h]

theorem stripTagsF_other {fuel : Nat} {c : Char} {rest : List Char}
    (h : ¬ c = '<') :
    stripTagsF (fuel + 1) (c :: rest) = c :: stripTagsF fuel rest := by
  simp [stripTagsF, h]

theorem stripTagsF_nil (fuel : Nat) : stripTagsF fuel [] = [] := by
  cases fuel <;> rfl

theorem stripTagsF_mem : ∀ (fuel : Nat) (l : List Char) (c : Char),
    c ∈ stripTagsF fuel l → c = ' ' ∨ c ∈ l := by
  intro fuel
  induction fuel with
  | zero =>
    intro l c h
    cases l <;> simp [stripTagsF] at h
  | succ fuel ih =>
    intro l c h
    cases l with
    | nil => simp [stripTagsF] at h
    | cons a rest =>
      by_cases ha : a = '<'
      · subst ha
        cases hte : tagEnd rest with
        | some r =>
          rw [stripTagsF_lt_some hte] at h
          rcases List.mem_cons.mp h with rfl | h2
          · exact Or.inl rfl
          · rcases ih r c h2 with h3 | h3
            · exact Or.inl h3
            · exact Or.inr (List.mem_cons_of_mem _ (tagEnd_subset rest r hte c h3))
        | none =>
          rw [stripTagsF_lt_none hte] at h
          rcases List.mem_cons.mp h with rfl | h2
          · exact Or.inr (List.mem_cons_self _ _)
          · rcases ih rest c h2 with h3 | h3
            · exact Or.inl h3
            · exact Or.inr (List.mem_cons_of_mem _ h3)
      · rw [stripTagsF_other ha] at h
        rcases List.mem_cons.mp h with rfl | h2
        · exact Or.inr (List.mem_cons_self _ _)
        · rcases ih rest c h2 with h3 | h3
          · exact Or.inl h3
          · exact Or.inr (List.mem_cons_of_mem _ h3)

theorem tagFree_nil : TagFree [] := by
  intro pre mid post hm _ heq
  cases pre <;> simp at heq

theorem tagFree_cons {c : Char} {t : List Char} (hc : c ≠ '<')
    (h : TagFree t) : TagFree (c :: t) := by
  intro pre mid post hm hng heq
  cases pre with
  | nil =>
    rw [List.nil_append] at heq
    injection heq with h1 h2
    exact hc h1
  | cons p pre2 =>
    rw [List.cons_append] at heq
    injection heq with h1 h2
    exact h pre2 mid post hm hng h2

theorem tagFree_lt {S : List Char} (hS : TagFree S)
    (hno : ∀ mid post : List Char, mid ≠ [] → (∀ c ∈ mid, c ≠ '>') →
      S ≠ mid ++ '>' :: post) : TagFree ('<' :: S) := by
  intro pre mid post hm hng heq
  cases pre with
  | nil =>
    rw [List.nil_append] at heq
    injection heq with h1 h2
    exact hno mid post hm hng h2
  | cons p pre2 =>
    rw [List.cons_append] at heq
    injection heq with h1 h2
    exact hS pre2 mid post hm hng h2

theorem tagFree_stripTagsF : ∀ (fuel : Nat) (l : List Char), l.length ≤ fuel →
    TagFree (stripTagsF fuel l) := by
  intro fuel
  induction fuel with
  | zero =>
    intro l hl
    obtain rfl : l = [] := List.length_eq_zero.mp (Nat.le_zero.mp hl)
    exact tagFree_nil
  | succ fuel ih =>
    intro l hl
    cases l with
    | nil =>
      rw [stripTagsF_nil]
      exact tagFree_nil
    | cons a rest =>
      have hrest : rest.length ≤ fuel := by
        rw [List.length_cons] at hl
        omega
      by_cases ha : a = '<'
      · subst ha
        cases hte : tagEnd rest with
        | some r =>
          rw [stripTagsF_lt_some hte]
          have hr : r.length ≤ fuel := by
            have := tagEnd_length rest r hte
            omega
          exact tagFree_cons (by decide) (ih r hr)
        | none =>
          rw [stripTagsF_lt_none hte]
          refine tagFree_lt (ih rest hrest) ?_
          intro mid post hm hng heqS
          cases rest with
          | nil =>
            rw [stripTagsF_nil] at heqS
            simp at heqS
          | cons b rest2 =>
            by_cases hb : b = '>'
            · cases fuel with
              | zero =>
                rw [List.length_cons] at hrest
                omega
              | succ fuel2 =>
                subst hb
                rw [stripTagsF_other (by decide)] at heqS
                cases mid with
                | nil => exact hm rfl
                | cons m mid2 =>
                  rw [List.cons_append] at heqS
                  injection heqS with h1 h2
                  exact hng m (List.mem_cons_self _ _) h1.symm
            · have hagn : afterGt rest2 = none := by
                rw [tagEnd, if_neg hb] at hte
                exact hte
              have hnogt : '>' ∉ (b :: rest2) := by
                intro hmem
                rcases List.mem_cons.mp hmem with heq2 | h2
                · exact hb heq2.symm
                · exact afterGt_none rest2 hagn h2
              have hnogtS : '>' ∉ stripTagsF fuel (b :: rest2) := by
                intro hmem
                rcases stripTagsF_mem fuel _ '>' hmem with h3 | h3
                · exact absurd h3 (by decide)
                · exact hnogt h3
              rw [heqS] at hnogtS
              exact hnogtS (List.mem_append_right _ (List.mem_cons_self _ _))
      · rw [stripTagsF_other ha]
        exact tagFree_cons ha (ih rest hrest)

theorem tagFree_stripTags (l : List Char) : TagFree (stripTags l) :=
  tagFree_stripTagsF l.length l (Nat.le_refl _)

/-! ## C6: the claim theorems -/

/-- C6 counterexample: the raw description "a"*499 ++ " b" cleans to 501
characters, and the stored `clean_html(...)[:500]` prefix ends in a
space — the description field has trailing whitespace, refuting the claim
as stated. -/
theorem description_trailing_cex :
    (descOf longRaw).data.length = 500 ∧
    (descOf longRaw).data.getLast? = some ' ' ∧
    isPySpace ' ' = true := by
  refine ⟨by decide, by decide, by decide⟩

/-- C6 amended: the description field is the at-most-500-character prefix
of the cleaned text; the tag-stripping pass leaves no `<[^>]+>` occurrence
(entity decoding may later surface literal angle-bracket text); the field
has no leading whitespace, every whitespace character in it is a single
space and no two are adjacent; and it has no trailing whitespace whenever
the cleaned text already fits in 500 characters — only truncation can cut
right after a space. -/
theorem description_clean_amended (raw : String) :
    (descOf raw).data.length ≤ 500 ∧
    (∀ c : Char, (descOf raw).data.head? = some c → isPySpace c = false) ∧
    (∀ c ∈ (descOf raw).data, isPySpace c = true → c = ' ') ∧
    List.Chain' (fun a b => ¬(isPySpace a = true ∧ isPySpace b = true))
      (descOf raw).data ∧
    ((clean_html raw).data.length ≤ 500 →
      ∀ c : Char, (descOf raw).data.getLast? = some c → isPySpace c = false) ∧
    TagFree (stripTags raw.data) := by
  have hdesc : (descOf raw).data = (clean_html raw).data.take 500 := rfl
  have hclean : (clean_html raw).data =
      pyStrip (collapseWs (unescape (stripTags raw.data))) := rfl
  refine ⟨?_, ?_, ?_, ?_, ?_, tagFree_stripTags raw.data⟩
  · rw [hdesc]
    exact List.length_take_le 500 _
  · intro c h
    rw [hdesc] at h
    have h2 := head?_of_prefix (List.take_prefix 500 (clean_html raw).data) c h
    rw [hclean] at h2
    exact pyStrip_head _ c h2
  · intro c h hc
    rw [hdesc] at h
    have h2 := (List.take_sublist 500 _).subset h
    rw [hclean] at h2
    have h3 := mem_pyStrip _ c h2
    exact allws_collapse _ false c h3 hc
  · rw [hdesc, hclean]
    exact List.Chain'.take (chain'_pyStrip _ (chain'_collapse _ false)) 500
  · intro hlen c h
    rw [hdesc, List.take_of_length_le hlen, hclean] at h
    exact pyStrip_last _ c h

/-- Witness for C6 at a concrete raw description with tags and padding:
the cleaned text is "hello world", kept whole, tag-free, starting with
the non-space character h and ending with the non-space character d. -/
theorem description_clean_amended_witness :
    (descOf cleanEx).data.length ≤ 500 ∧
    isPySpace 'h' = false ∧
    isPySpace 'd' = false ∧
    TagFree (stripTags cleanEx.data) := by
  have h := description_clean_amended cleanEx
  exact ⟨h.1, h.2.1 'h' (by decide), h.2.2.2.2.1 (by decide) 'd' (by decide),
    h.2.2.2.2.2⟩

end ProspectBot
